import Mathlib

/-!
Verification of the wavefront dataflow trace visualizer (`src/app.js`).

The development shallowly embeds the trace-to-graph binding and playback
engine of the `DataflowVisualizer` class:

* `parseFireLog` embeds the fire-log parser (app.js `parseFireLog`,
  lines 209-247), including the line regex
  `^\[(\d+)\]\s+\((\d+)\)\s+(\S+)(.*)$` and the grouping of entries into
  the per-cycle map `cycleData`.
* `resolveOutput` embeds the output-port resolver
  (`_getResValueForIndex`, lines 930-1023) including every opcode-name
  test of the original if/else chain; the JavaScript regular-expression
  tests are compiled alternative-by-alternative into boolean functions.
* `jsStrToNum` embeds the `Number(string)` coercion used by the carry and
  steer branches.
* The playback state machine (`reset`, `enableControls`, `nextCycle`,
  `previousCycle`) and the token-queue model (`processInstructionsForQueues`,
  the queue part of `visualizeTokens`, `replayToCurrentCycle`,
  `jumpToCycle`) are embedded over explicit association-list states.

Strings are handled at the character-list level so that all definitions
evaluate by kernel reduction; whitespace is the ASCII whitespace accepted
by the log format.
-/

namespace Wavefront

/-- ASCII whitespace, standing in for the JavaScript `\s` class on the
plain-ASCII trace text this tool consumes. -/
def wsChar (c : Char) : Bool :=
  c = ' ' || c = '\t' || c = '\n' || c = '\r'

/-- Remove leading and trailing whitespace from a character list
(JavaScript `String.prototype.trim`). -/
def trimChars (cs : List Char) : List Char :=
  ((cs.dropWhile wsChar).reverse.dropWhile wsChar).reverse

/-- Split a character list at newline characters (JavaScript
`split('\n')`); the result always has at least one (possibly empty)
piece. -/
def splitOnNl (cs : List Char) : List (List Char) :=
  match cs with
  | [] => [[]]
  | '\n' :: rest => [] :: splitOnNl rest
  | c :: rest =>
    match splitOnNl rest with
    | [] => [[c]]
    | piece :: pieces => (c :: piece) :: pieces

/-- Split a character list on runs of whitespace, dropping empty pieces
(JavaScript `split(/\s+/)` applied to a trimmed string). -/
def splitWsTokens (cs : List Char) : List (List Char) :=
  match cs with
  | [] => []
  | c :: rest =>
    if wsChar c then splitWsTokens rest
    else
      match splitWsTokens rest with
      | [] => [[c]]
      | piece :: pieces =>
        match rest with
        | [] => [[c]]
        | r :: _ => if wsChar r then [c] :: piece :: pieces else (c :: piece) :: pieces

/-- Does the character list start with the given pattern, where `none`
entries are single-character wildcards (the `.` of an unescaped
JavaScript regex literal)? -/
def startsWithPat : List Char → List (Option Char) → Bool
  | _, [] => true
  | [], _ :: _ => false
  | c :: cs, p :: ps =>
    (match p with
     | some x => decide (c = x)
     | none => true) && startsWithPat cs ps

/-- Does the character list contain the pattern anywhere (leftmost
search, as a JavaScript regex `test`)? -/
def containsPat (hay : List Char) (pat : List (Option Char)) : Bool :=
  startsWithPat hay pat ||
    (match hay with
     | [] => false
     | _ :: t => containsPat t pat)

/-- Literal pattern of a plain substring. -/
def litPat (s : String) : List (Option Char) := s.data.map some

/-- JavaScript `String.prototype.includes` for plain substrings. -/
def jsIncludes (s sub : String) : Bool := containsPat s.data (litPat sub)

/-- Does the string end with the given suffix (a JavaScript regex
alternative of the form `suf$`)? -/
def jsEndsWith (s suf : String) : Bool :=
  startsWithPat s.data.reverse (suf.data.reverse.map some)

/-- JavaScript `String.prototype.toLowerCase` on the ASCII opcode
names of the log format. -/
def jsLower (s : String) : String := ⟨s.data.map Char.toLower⟩

/-- Numeric value of a list of decimal digit characters. -/
def digitsToNat (cs : List Char) : Nat :=
  cs.foldl (fun n c => 10 * n + (c.toNat - 48)) 0

/-- One parsed fire-log line (app.js lines 228-234): the `entry` object
pushed into `fireLogData`. -/
structure FireEntry where
  cycle : Nat
  instructionId : Nat
  instructionName : String
  args : List String
  line : String
deriving Repr, DecidableEq

/-- Match one already-trimmed line against the fire-log regex
`^\[(\d+)\]\s+\((\d+)\)\s+(\S+)(.*)$` (app.js line 217), returning the
cycle digits, instruction-id digits, opcode name and raw argument tail. -/
def matchFireLine (cs : List Char) : Option (Nat × Nat × List Char × List Char) :=
  match cs with
  | '[' :: r1 =>
    let ds := r1.takeWhile Char.isDigit
    if ds.isEmpty then none else
    match r1.dropWhile Char.isDigit with
    | ']' :: r3 =>
      let ws1 := r3.takeWhile wsChar
      if ws1.isEmpty then none else
      match r3.dropWhile wsChar with
      | '(' :: r5 =>
        let ds2 := r5.takeWhile Char.isDigit
        if ds2.isEmpty then none else
        match r5.dropWhile Char.isDigit with
        | ')' :: r7 =>
          let ws2 := r7.takeWhile wsChar
          if ws2.isEmpty then none else
          let r8 := r7.dropWhile wsChar
          let nm := r8.takeWhile (fun c => !wsChar c)
          if nm.isEmpty then none else
          some (digitsToNat ds, digitsToNat ds2, nm, r8.dropWhile (fun c => !wsChar c))
        | _ => none
      | _ => none
    | _ => none
  | _ => none

/-- Parse one raw line into a `FireEntry` (the body of the `forEach`
callback in app.js lines 219-243): trim, match the regex, trim the
argument tail and split it on whitespace. -/
def lineToEntry (rawLine : String) : Option FireEntry :=
  let t := trimChars rawLine.data
  match matchFireLine t with
  | none => none
  | some (cyc, iid, nm, tail) =>
    let argsStr := trimChars tail
    let args := if argsStr.isEmpty then [] else splitWsTokens argsStr
    some { cycle := cyc, instructionId := iid, instructionName := ⟨nm⟩,
           args := args.map (fun a => (⟨a⟩ : String)), line := ⟨t⟩ }

/-- The cycle map: JavaScript `Map` of cycle number to the entries fired
in that cycle, as an association list in key-insertion order. -/
abbrev CycleMap := List (Nat × List FireEntry)

/-- Association-list lookup (JavaScript `Map.prototype.get`). -/
def alookup {κ α : Type} [DecidableEq κ] : List (κ × α) → κ → Option α
  | [], _ => none
  | (k, v) :: rest, key => if k = key then some v else alookup rest key

/-- Append an entry to the bucket of its cycle, creating the bucket at
the end of the map if the cycle is new (app.js lines 239-242). -/
def pushCycle : CycleMap → Nat → FireEntry → CycleMap
  | [], c, e => [(c, [e])]
  | (k, es) :: rest, c, e =>
    if k = c then (k, es ++ [e]) :: rest else (k, es) :: pushCycle rest c e

/-- Parser state: the flat entry list `this.fireLogData` and the grouped
map `this.cycleData`. -/
structure ParseState where
  fireLogData : List FireEntry
  cycleData : CycleMap
deriving Repr, DecidableEq

/-- Record one parsed entry (app.js lines 236-242). -/
def pushEntry (st : ParseState) (e : FireEntry) : ParseState :=
  { fireLogData := st.fireLogData ++ [e],
    cycleData := pushCycle st.cycleData e.cycle e }

/-- The fire-log parser `parseFireLog` (app.js lines 209-247): trim the
content, split into lines, and accumulate every line matching the
grammar, silently passing over the rest. -/
def parseFireLog (content : String) : ParseState :=
  (splitOnNl (trimChars content.data)).foldl
    (fun st l =>
      match lineToEntry ⟨l⟩ with
      | none => st
      | some e => pushEntry st e)
    { fireLogData := [], cycleData := [] }

/-- Number of non-blank lines that fail the accepted line grammar — the
diagnostic count the specification asks the parser to report. -/
def skippedLineCount (content : String) : Nat :=
  ((splitOnNl (trimChars content.data)).filter
    (fun l => !(trimChars l).isEmpty && (matchFireLine (trimChars l)).isNone)).length

/-! Model of the JavaScript `Number(string)` coercion, as used by
`_getResValueForIndex` on whitespace-free argument tokens. -/

/-- Result of coercing a string with `Number`: not a number, a signed
infinity, or the exact rational `num / 10 ^ den10`. -/
inductive JsNum where
  | nan : JsNum
  | infinite (neg : Bool) : JsNum
  | finite (num : Int) (den10 : Nat) : JsNum
deriving Repr, DecidableEq

/-- Hexadecimal digit test. -/
def isHexDigitChar (c : Char) : Bool :=
  c.isDigit || ('a' ≤ c && c ≤ 'f') || ('A' ≤ c && c ≤ 'F')

/-- Value of a hexadecimal digit. -/
def hexDigitVal (c : Char) : Nat :=
  if c.isDigit then c.toNat - 48
  else if 'a' ≤ c && c ≤ 'f' then c.toNat - 87
  else c.toNat - 55

/-- Value of a list of hexadecimal digits. -/
def hexToNat (cs : List Char) : Nat :=
  cs.foldl (fun n c => 16 * n + hexDigitVal c) 0

/-- Exponent part of a decimal numeric literal: an optional sign
followed by one or more digits, which must consume the whole rest. -/
def parseExpTail (cs : List Char) : Option Int :=
  match cs with
  | '+' :: ds =>
    if ds.isEmpty || !(ds.all Char.isDigit) then none else some (digitsToNat ds : Int)
  | '-' :: ds =>
    if ds.isEmpty || !(ds.all Char.isDigit) then none else some (-(digitsToNat ds : Int))
  | ds =>
    if ds.isEmpty || !(ds.all Char.isDigit) then none else some (digitsToNat ds : Int)

/-- Combine mantissa digits, the number of fractional digits and a
decimal exponent into an exact `num / 10 ^ den10` representation. -/
def decCombine (mant : Nat) (fracLen : Nat) (e : Int) : Int × Nat :=
  let shift := e - (fracLen : Int)
  if 0 ≤ shift then ((mant : Int) * 10 ^ shift.toNat, 0)
  else ((mant : Int), (-shift).toNat)

/-- Unsigned decimal literal with optional fraction and exponent
(`123`, `123.`, `12.5`, `.5`, `1e3`, `2.5E-2`, ...); `none` when the
characters are not exactly such a literal. -/
def parseDecBody (cs : List Char) : Option (Int × Nat) :=
  let ip := cs.takeWhile Char.isDigit
  match cs.dropWhile Char.isDigit with
  | '.' :: r2 =>
    let fp := r2.takeWhile Char.isDigit
    if ip.isEmpty && fp.isEmpty then none
    else
      let mant := digitsToNat (ip ++ fp)
      match r2.dropWhile Char.isDigit with
      | [] => some (decCombine mant fp.length 0)
      | 'e' :: r4 => (parseExpTail r4).map (decCombine mant fp.length)
      | 'E' :: r4 => (parseExpTail r4).map (decCombine mant fp.length)
      | _ => none
  | [] => if ip.isEmpty then none else some ((digitsToNat ip : Int), 0)
  | 'e' :: r4 =>
    if ip.isEmpty then none else (parseExpTail r4).map (decCombine (digitsToNat ip) 0)
  | 'E' :: r4 =>
    if ip.isEmpty then none else (parseExpTail r4).map (decCombine (digitsToNat ip) 0)
  | _ => none

/-- Signed part of a `Number` coercion: a decimal literal or the word
`Infinity`, anything else being `NaN`. -/
def jsSignedTail (cs : List Char) (neg : Bool) : JsNum :=
  match parseDecBody cs with
  | some (n, d) => JsNum.finite (if neg then -n else n) d
  | none => if cs = "Infinity".data then JsNum.infinite neg else JsNum.nan

/-- Radix-prefixed literal (`0x`, `0o`, `0b`): digits of the radix, or
`NaN`. -/
def jsRadixTail (r : List Char) (digitOk : Char → Bool) (digitVal : Char → Nat)
    (radix : Nat) : JsNum :=
  if r.isEmpty || !(r.all digitOk) then JsNum.nan
  else JsNum.finite (r.foldl (fun n c => radix * n + digitVal c) 0 : Nat) 0

/-- JavaScript `Number(string)`: trim, then the empty string is `0`, a
sign only precedes a decimal literal or `Infinity`, and `0x`/`0o`/`0b`
prefixes introduce unsigned radix literals. -/
def jsStrToNum (s : String) : JsNum :=
  match trimChars s.data with
  | [] => JsNum.finite 0 0
  | '+' :: r => jsSignedTail r false
  | '-' :: r => jsSignedTail r true
  | '0' :: 'x' :: r => jsRadixTail r isHexDigitChar hexDigitVal 16
  | '0' :: 'X' :: r => jsRadixTail r isHexDigitChar hexDigitVal 16
  | '0' :: 'o' :: r => jsRadixTail r (fun c => '0' ≤ c && c ≤ '7') (fun c => c.toNat - 48) 8
  | '0' :: 'O' :: r => jsRadixTail r (fun c => '0' ≤ c && c ≤ '7') (fun c => c.toNat - 48) 8
  | '0' :: 'b' :: r => jsRadixTail r (fun c => c = '0' || c = '1') (fun c => c.toNat - 48) 2
  | '0' :: 'B' :: r => jsRadixTail r (fun c => c = '0' || c = '1') (fun c => c.toNat - 48) 2
  | cs => jsSignedTail cs false

/-- The JavaScript test `isNaN(Number(s))` (app.js line 944). -/
def jsNumberIsNaN (s : String) : Bool := jsStrToNum s = JsNum.nan

/-- The integer `n` with `Number(s) === n`, when one exists; `none`
when `Number(s)` is `NaN`, infinite or not an integer (in all of which
cases a strict comparison with an integer port index is false). -/
def jsNumberToInt (s : String) : Option Int :=
  match jsStrToNum s with
  | JsNum.finite num den =>
    if num % ((10 : Int) ^ den) = 0 then some (num / (10 : Int) ^ den) else none
  | _ => none

/-! The output-port resolver `_getResValueForIndex` (app.js lines
930-1023). Each JavaScript regex test of the if/else chain is compiled
alternative-by-alternative. -/

/-- Safe positional access, the helper `at` of app.js line 936
(`(i >= 0 && i < args.length) ? args[i] : null`; the index is a `Nat`,
so the lower bound is implicit). -/
def listAt {α : Type} (l : List α) (i : Nat) : Option α := l.get? i

/-- Test of `/(add|sub|mul|div|rem|and_|or_|xor|shl|ashr|lshr|^add$|and$|or$|xor$|shl$|ashr$|lshr$|eq$|ne$|lt$|gt$|le$|ge$)/`
(app.js line 962): binary arithmetic and comparison opcodes. -/
def binaryNameMatch (name : String) : Bool :=
  jsIncludes name "add" || jsIncludes name "sub" || jsIncludes name "mul" ||
  jsIncludes name "div" || jsIncludes name "rem" || jsIncludes name "and_" ||
  jsIncludes name "or_" || jsIncludes name "xor" || jsIncludes name "shl" ||
  jsIncludes name "ashr" || jsIncludes name "lshr" || name = "add" ||
  jsEndsWith name "and" || jsEndsWith name "or" || jsEndsWith name "xor" ||
  jsEndsWith name "shl" || jsEndsWith name "ashr" || jsEndsWith name "lshr" ||
  jsEndsWith name "eq" || jsEndsWith name "ne" || jsEndsWith name "lt" ||
  jsEndsWith name "gt" || jsEndsWith name "le" || jsEndsWith name "ge"

/-- Test of `/(and|or|xor|shl|ashr|lshr)/` (app.js line 967): bitwise
opcodes. -/
def bitwiseNameMatch (name : String) : Bool :=
  jsIncludes name "and" || jsIncludes name "or" || jsIncludes name "xor" ||
  jsIncludes name "shl" || jsIncludes name "ashr" || jsIncludes name "lshr"

/-- Test of `/(extsi|extui|trunci|fptoui|fptosi|sitofp|uitofp|abs|neg)/`
(app.js line 972): type-conversion opcodes. -/
def convNameMatch (name : String) : Bool :=
  jsIncludes name "extsi" || jsIncludes name "extui" || jsIncludes name "trunci" ||
  jsIncludes name "fptoui" || jsIncludes name "fptosi" || jsIncludes name "sitofp" ||
  jsIncludes name "uitofp" || jsIncludes name "abs" || jsIncludes name "neg"

/-- Test of `/(constant|c0|copy|dataflow\.constant|dataflow.copy|bitcast|freeze)/`
(app.js line 977); the unescaped dot of `dataflow.copy` is a
single-character wildcard. -/
def constNameMatch (name : String) : Bool :=
  jsIncludes name "constant" || jsIncludes name "c0" || jsIncludes name "copy" ||
  jsIncludes name "dataflow.constant" ||
  containsPat name.data (litPat "dataflow" ++ [none] ++ litPat "copy") ||
  jsIncludes name "bitcast" || jsIncludes name "freeze"

/-- The carry special case (app.js lines 939-951). The result is
`some r` when that block returns `r` and `none` when control falls
through to the rest of the chain (first argument not a transition
label). -/
def carryCase (args : List String) (resIndex : Nat) : Option (Option String) :=
  match args with
  | [] => some none
  | a0 :: rest =>
    if jsIncludes a0 "->" then
      some (match rest with
            | a1 :: _ =>
              if jsNumberIsNaN a1 = false then
                (if resIndex = 0 then some a1 else none)
              else none
            | [] => none)
    else none

/-- The rest of the `_getResValueForIndex` chain, after the carry
special case (app.js lines 953-1022). -/
def resolveAfterCarry (name : String) (args : List String) (resIndex : Nat) :
    Option String :=
  if jsIncludes name "stream" then
    -- stream (lines 956-959): the requested port indexes rawArgs directly
    if args.isEmpty then none else listAt args resIndex
  else if binaryNameMatch name then
    -- binary arithmetic / comparison (lines 962-964): op0 op1 res0
    if resIndex = 0 then listAt args 2 else none
  else if bitwiseNameMatch name then
    -- bitwise (lines 967-969): same layout
    if resIndex = 0 then listAt args 2 else none
  else if convNameMatch name then
    -- type conversions (lines 972-974): op0 res0
    if resIndex = 0 then listAt args 1 else none
  else if constNameMatch name then
    -- constants / passthrough (lines 977-979): res0
    if resIndex = 0 then listAt args 0 else none
  else if jsIncludes name "steer" && decide (3 ≤ args.length) then
    -- steer (lines 982-993); both sub-branches require at least 3 args,
    -- otherwise control falls through below
    match listAt args 2, listAt args 1 with
    | some a2, some a1 =>
      if jsIncludes name "dataflow.steer" then
        -- multi-output steer: channel = Number(args[2])
        match jsNumberToInt a2 with
        | some channel => if (resIndex : Int) = channel then some a1 else none
        | none => none
      else
        -- single-output true/false steer: fired-flag truthiness
        if resIndex = 0 && (a2 ≠ "0" && jsLower a2 ≠ "false") then some a1 else none
    | _, _ => none
  else if jsIncludes name "loadindex" then
    -- loadIndex (lines 996-998): res0 at index 3
    if resIndex = 0 then listAt args 3 else none
  else if jsIncludes name "load" then
    -- load (lines 1000-1002): res0 at index 2 (the source's
    -- `name === 'load' ||` disjunct is subsumed by the includes test)
    if resIndex = 0 then listAt args 2 else none
  else if jsIncludes name "store" then
    -- store / storeIndex (lines 1005-1007): no data token
    none
  else if jsIncludes name "send" then
    -- send (line 1010): no resolvable output
    none
  else if jsIncludes name "merge" && decide (1 ≤ args.length) then
    -- generic merge (lines 1013-1015): res0
    if resIndex = 0 then listAt args 0 else none
  else if resIndex = 0 && !args.isEmpty then
    -- default (lines 1018-1020): last argument as res0
    listAt args (args.length - 1)
  else none

/-- The output-port resolver `_getResValueForIndex` (app.js lines
930-1023) with the instruction fields passed positionally: lowercase the
opcode name, run the carry special case, then the rest of the chain.
An empty opcode name is falsy, so the guard of line 931 yields `null`
for it. -/
def resolveOutput (instructionName : String) (args : List String) (resIndex : Nat) :
    Option String :=
  if instructionName = "" then none
  else if jsIncludes (jsLower instructionName) "carry" then
    match carryCase args resIndex with
    | some r => r
    | none => resolveAfterCarry (jsLower instructionName) args resIndex
  else resolveAfterCarry (jsLower instructionName) args resIndex

/-- The resolver applied to a parsed fire-log entry, as the callers do. -/
def getResValueForIndex (instr : FireEntry) (resIndex : Nat) : Option String :=
  resolveOutput instr.instructionName instr.args resIndex

/-! The playback state machine (constructor defaults at app.js lines
9-11 and 22; `pause` lines 412-421; `reset` lines 423-432;
`enableControls` lines 369-382; `nextCycle` lines 577-583;
`previousCycle` lines 434-444). -/

/-- The PlaybackState fields of `DataflowVisualizer`: cycle pointer,
playing flag, speed multiplier and step size. DOM widgets, the timer
handle and the token queues live outside this record. -/
structure PlaybackState where
  currentCycle : Nat
  isPlaying : Bool
  playbackSpeed : Nat
  stepSize : Nat
deriving Repr, DecidableEq

/-- Constructor defaults: cycle 0, not playing, speed 5, step 1. -/
def initPlayback : PlaybackState :=
  { currentCycle := 0, isPlaying := false, playbackSpeed := 5, stepSize := 1 }

/-- State effect of `pause()`: clear the playing flag (and cancel the
timer, which is outside the record). -/
def pauseOp (s : PlaybackState) : PlaybackState := { s with isPlaying := false }

/-- State effect of `reset()`: pause, rewind to cycle 0 (queue clearing
is modelled with the queue state below). -/
def resetOp (s : PlaybackState) : PlaybackState :=
  { pauseOp s with currentCycle := 0 }

/-- State effect of `enableControls()`, run whenever a trace and a graph
have both been successfully loaded: enable the buttons (DOM-only) and
call `reset()`. -/
def enableControlsOp (s : PlaybackState) : PlaybackState := resetOp s

/-- The maximum cycle present in the cycle map:
`Math.max(...Array.from(this.cycleData.keys()))`. For an empty map the
JavaScript value is `-Infinity`, below every cycle; `0` plays that role
for the `Nat` comparisons used here (playback is only reachable with a
non-empty parsed trace). -/
def maxCycleOf (cycleData : CycleMap) : Nat :=
  (cycleData.map Prod.fst).foldl max 0

/-- Cycle-pointer effect of `nextCycle()`: advance by the step size,
clamped to the maximum cycle, only when strictly below it. -/
def nextCycleOp (cycleData : CycleMap) (currentCycle stepSize : Nat) : Nat :=
  if currentCycle < maxCycleOf cycleData
  then min (maxCycleOf cycleData) (currentCycle + stepSize)
  else currentCycle

/-- Cycle-pointer effect of `previousCycle()`: step back by the step
size, clamped to 0 (`Math.max(0, currentCycle - stepSize)`), only when
strictly above 0. -/
def previousCycleOp (currentCycle stepSize : Nat) : Nat :=
  if 0 < currentCycle
  then (max 0 ((currentCycle : Int) - (stepSize : Int))).toNat
  else currentCycle

/-! The token-queue model (queue-visualization mode). The queue effects
of `processInstructionsForQueues` (app.js lines 479-575, silent replay)
and of `visualizeTokens` (lines 682-829, normal render) are embedded
over an abstract rendered graph: node/edge indices are data, edge-end
geometry is carried on each edge, and the res-index extraction
`_extractResIndexFromEdgeTitle` is an arbitrary function parameter,
since both code paths invoke the identical helper. -/

/-- A rendered edge as the queue code observes it: its `<title>` text,
its label text (`""` when the label element is missing), whether it has
a measurable `<path>`, and the point near the end of that path
(`getPointAtLength(L - 2)`). -/
structure EdgeInfo where
  title : String
  label : String
  hasPath : Bool
  endX : Int
  endY : Int
deriving Repr, DecidableEq

/-- The graph binding tables built after rendering: which instruction
ids have a node (`nodeMap`), the id-to-name table (`nodeIdToName`), and
outgoing edges per source node name (`edgesBySource`). -/
structure GraphCfg where
  nodeIds : List Nat
  nodeIdToName : List (Nat × String)
  edgesBySource : List (String × List EdgeInfo)
deriving Repr, DecidableEq

/-- One input-port queue: anchor position and the FIFO of pending token
values (head = oldest). -/
structure QueueData where
  baseX : Int
  baseY : Int
  tokens : List String
deriving Repr, DecidableEq

/-- The queues of one target node, keyed by input-port key in insertion
order. -/
abbrev InputQueues := List (String × QueueData)

/-- The whole `queuedTokens` map, keyed by target node name in
insertion order. -/
abbrev Queues := List (String × InputQueues)

/-- Firing pops the head of every input queue of the node and deletes
queues that are (or become) empty (app.js lines 492-508). -/
def popInputQueues (qs : InputQueues) : InputQueues :=
  (qs.map (fun kv => (kv.1, { kv.2 with tokens := kv.2.tokens.tail }))).filter
    (fun kv => !kv.2.tokens.isEmpty)

/-- Pop the input queues of a firing node, if it has any; delete the
node entry when all its queues empty out (app.js lines 490-510). -/
def popNodeInputs (st : Queues) (nodeName : String) : Queues :=
  match alookup st nodeName with
  | none => st
  | some qs =>
    let popped := popInputQueues qs
    if popped.isEmpty then st.filter (fun kv => kv.1 ≠ nodeName)
    else st.map (fun kv => if kv.1 = nodeName then (kv.1, popped) else kv)

/-- Append one token value to the queue of `key` at `targetName`,
creating map entries on demand and re-anchoring the queue to the edge
end point (app.js lines 542-569). -/
def enqueueInner (qs : InputQueues) (key : String) (x y : Int) (v : String) :
    InputQueues :=
  let qs1 := if (alookup qs key).isNone
             then qs ++ [(key, { baseX := x, baseY := y, tokens := [] })]
             else qs
  qs1.map (fun kv =>
    if kv.1 = key
    then (kv.1, { baseX := x, baseY := y, tokens := kv.2.tokens ++ [v] })
    else kv)

/-- Outer-map part of enqueueing (app.js lines 542-545). -/
def enqueueToken (st : Queues) (targetName : String) (key : String) (x y : Int)
    (v : String) : Queues :=
  let st1 := if (alookup st targetName).isNone then st ++ [(targetName, [])] else st
  st1.map (fun kv =>
    if kv.1 = targetName then (kv.1, enqueueInner kv.2 key x y v) else kv)

/-- First match of the regex `->\s*([^:\s]+)` against an edge title:
the target node name, scanning left to right for an arrow followed by a
non-empty run of characters that are neither whitespace nor a colon. -/
def arrowTargetHere (cs : List Char) : Option (List Char) :=
  match cs with
  | '-' :: '>' :: r2 =>
    let r3 := r2.dropWhile wsChar
    let tok := r3.takeWhile (fun c => !wsChar c && c ≠ ':')
    if tok.isEmpty then none else some tok
  | _ => none

/-- Leftmost-match scan for `arrowTargetHere`. -/
def arrowTargetScan (cs : List Char) : Option (List Char) :=
  match cs with
  | [] => none
  | _ :: rest =>
    match arrowTargetHere cs with
    | some t => some t
    | none => arrowTargetScan rest

/-- Target node name of an edge title (app.js lines 533-534 / 751-752). -/
def arrowTargetName (s : String) : Option String :=
  (arrowTargetScan s.data).map (fun l => (⟨l⟩ : String))

/-- Match of `op\[(\d+)\]` at the head of the character list. -/
def opIndexHere (cs : List Char) : Option Nat :=
  match cs with
  | 'o' :: 'p' :: '[' :: r2 =>
    let ds := r2.takeWhile Char.isDigit
    match r2.dropWhile Char.isDigit with
    | ']' :: _ => if ds.isEmpty then none else some (digitsToNat ds)
    | _ => none
  | _ => none

/-- First match of `/op\[(\d+)\]/` against an edge label: the target
input index (app.js lines 536-537 / 755-756). -/
def opIndexScan (cs : List Char) : Option Nat :=
  match cs with
  | [] => none
  | _ :: rest =>
    match opIndexHere cs with
    | some j => some j
    | none => opIndexScan rest

/-- Queue effect of one outgoing edge of a firing node: resolve the res
index through the extraction function, ask the resolver for the value,
and when a value and a target name exist, enqueue the value under the
edge's `op[j]` key (falling back to the res index). This block is
identical in the silent path (app.js lines 514-573) and in the render
path (lines 730-798), the latter additionally creating DOM elements. -/
def edgeQueueEffect (ext : String → String → Nat) (nodeName : String)
    (instr : FireEntry) (st : Queues) (edge : EdgeInfo) : Queues :=
  let edgeTitle : String := ⟨trimChars edge.title.data⟩
  let edgeLabel : String := ⟨trimChars edge.label.data⟩
  if edge.hasPath then
    let resIndex := ext edgeTitle nodeName
    match getResValueForIndex instr resIndex with
    | none => st
    | some v =>
      match arrowTargetName edgeTitle with
      | none => st
      | some targetName =>
        let targetInputIdx :=
          match opIndexScan edgeLabel.data with
          | some j => j
          | none => resIndex
        enqueueToken st targetName (toString targetInputIdx) edge.endX edge.endY v
  else st

/-- Per-instruction queue effect of the silent replay
(`processInstructionsForQueues`, app.js lines 482-574): skip
instructions without a bound node or node name, pop the node's input
queues, then run every outgoing edge. An empty node name is falsy in
`if (!nodeName) return`. -/
def fireInstrSilent (cfg : GraphCfg) (ext : String → String → Nat) (st : Queues)
    (instr : FireEntry) : Queues :=
  if !cfg.nodeIds.contains instr.instructionId then st
  else
    match alookup cfg.nodeIdToName instr.instructionId with
    | none => st
    | some nodeName =>
      if nodeName = "" then st
      else
        let st1 := popNodeInputs st nodeName
        ((alookup cfg.edgesBySource nodeName).getD []).foldl
          (edgeQueueEffect ext nodeName instr) st1

/-- Per-instruction queue effect of a normal render with queue mode on
(the queue statements of `visualizeTokens`, app.js lines 688-824): the
pop is guarded by `nodeName && queuedTokens.has(nodeName)` and the edge
walk by `if (nodeName)`; highlighting and token drawing have no queue
effect. -/
def fireInstrRender (cfg : GraphCfg) (ext : String → String → Nat) (st : Queues)
    (instr : FireEntry) : Queues :=
  if !cfg.nodeIds.contains instr.instructionId then st
  else
    let nameOpt := alookup cfg.nodeIdToName instr.instructionId
    let st1 :=
      match nameOpt with
      | some nodeName => if nodeName ≠ "" then popNodeInputs st nodeName else st
      | none => st
    match nameOpt with
    | some nodeName =>
      if nodeName ≠ "" then
        ((alookup cfg.edgesBySource nodeName).getD []).foldl
          (edgeQueueEffect ext nodeName instr) st1
      else st1
    | none => st1

/-- Silent queue replay of one cycle (the loop body of
`replayToCurrentCycle`, app.js lines 454-457). -/
def silentCycle (cfg : GraphCfg) (ext : String → String → Nat) (cdata : CycleMap)
    (st : Queues) (c : Nat) : Queues :=
  ((alookup cdata c).getD []).foldl (fireInstrSilent cfg ext) st

/-- Queue effect of rendering one cycle normally
(`updateVisualization` → `visualizeTokens` on the cycle's bucket). -/
def renderCycle (cfg : GraphCfg) (ext : String → String → Nat) (cdata : CycleMap)
    (st : Queues) (c : Nat) : Queues :=
  ((alookup cdata c).getD []).foldl (fireInstrRender cfg ext) st

/-- A stepping state: the cycle pointer and the queue contents. -/
structure StepState where
  currentCycle : Nat
  queues : Queues

/-- Queue-mode effect of `reset()` (app.js lines 423-432): rewind to
cycle 0, clear all queues, and render cycle 0. -/
def resetQueues (cfg : GraphCfg) (ext : String → String → Nat) (cdata : CycleMap) :
    StepState :=
  { currentCycle := 0, queues := renderCycle cfg ext cdata [] 0 }

/-- Queue-mode effect of one `nextCycle()` with step size 1 (app.js
lines 577-583): advance when strictly below the maximum cycle and
render the new cycle incrementally. -/
def nextCycleQueues (cfg : GraphCfg) (ext : String → String → Nat) (cdata : CycleMap)
    (s : StepState) : StepState :=
  let maxC := maxCycleOf cdata
  if s.currentCycle < maxC then
    let c := min maxC (s.currentCycle + 1)
    { currentCycle := c, queues := renderCycle cfg ext cdata s.queues c }
  else s

/-- Sequential stepping from a reset: render cycle 0, then apply
`nextCycle()` `target` times. -/
def stepTo (cfg : GraphCfg) (ext : String → String → Nat) (cdata : CycleMap) :
    Nat → StepState
  | 0 => resetQueues cfg ext cdata
  | n + 1 => nextCycleQueues cfg ext cdata (stepTo cfg ext cdata n)

/-- Queue contents after `seek(target)` in queue mode (`jumpToCycle`,
app.js lines 585-605, with `replayToCurrentCycle`, lines 446-461):
clamp the target, clear the queues, silently replay all earlier cycles,
then render the target cycle normally. -/
def seekQueues (cfg : GraphCfg) (ext : String → String → Nat) (cdata : CycleMap)
    (target : Nat) : Queues :=
  let bounded := min (maxCycleOf cdata) target
  renderCycle cfg ext cdata
    ((List.range bounded).foldl (silentCycle cfg ext cdata) []) bounded

/-! Helper lemmas shared by the claim theorems. -/

/-- The parser's line step, named for the fold lemmas. -/
def parseStep (st : ParseState) (l : List Char) : ParseState :=
  match lineToEntry ⟨l⟩ with
  | none => st
  | some e => pushEntry st e

theorem parseFireLog_eq_foldl (content : String) :
    parseFireLog content =
      (splitOnNl (trimChars content.data)).foldl parseStep
        { fireLogData := [], cycleData := [] } := rfl

theorem parseStep_entries (lines : List (List Char)) (st : ParseState) :
    (lines.foldl parseStep st).fireLogData
      = st.fireLogData ++ lines.filterMap (fun l => lineToEntry ⟨l⟩) := by
  induction lines generalizing st with
  | nil => simp
  | cons l ls ih =>
    simp only [List.foldl_cons, List.filterMap_cons]
    cases h : lineToEntry ⟨l⟩ with
    | none => simp [parseStep, h, ih]
    | some e => simp [parseStep, h, ih, pushEntry]

theorem length_filterMap_eq_length_filter {α β : Type} (f : α → Option β)
    (l : List α) :
    (l.filterMap f).length = (l.filter (fun x => (f x).isSome)).length := by
  induction l with
  | nil => rfl
  | cons a t ih =>
    cases h : f a <;> simp [List.filterMap_cons, h, ih]

theorem lineToEntry_isSome (l : List Char) :
    (lineToEntry ⟨l⟩).isSome = (matchFireLine (trimChars l)).isSome := by
  unfold lineToEntry
  cases h : matchFireLine (trimChars (⟨l⟩ : String).data) <;> simp_all [String.data]

theorem alookup_pushCycle (m : CycleMap) (c : Nat) (e : FireEntry) (d : Nat) :
    alookup (pushCycle m c e) d =
      if d = c then some (((alookup m c).getD []) ++ [e]) else alookup m d := by
  induction m with
  | nil =>
    by_cases h : d = c
    · simp [pushCycle, alookup, h]
    · have h2 : ¬ c = d := fun hh => h hh.symm
      simp [pushCycle, alookup, h, h2]
  | cons kv rest ih =>
    obtain ⟨k, es⟩ := kv
    by_cases hk : k = c
    · subst hk
      by_cases hd : d = k
      · simp [pushCycle, alookup, hd]
      · have h2 : ¬ k = d := fun hh => hd hh.symm
        simp [pushCycle, alookup, hd, h2]
    · by_cases hd : k = d
      · subst hd
        simp [pushCycle, hk, alookup, ih]
      · simp [pushCycle, hk, alookup, hd, ih]

/-- Total size of all buckets of the cycle map. -/
def cmapSizes (m : CycleMap) : Nat := (m.map (fun kv => kv.2.length)).sum

theorem cmapSizes_pushCycle (m : CycleMap) (c : Nat) (e : FireEntry) :
    cmapSizes (pushCycle m c e) = cmapSizes m + 1 := by
  induction m with
  | nil => simp [pushCycle, cmapSizes]
  | cons kv rest ih =>
    obtain ⟨k, es⟩ := kv
    by_cases hk : k = c <;> simp [pushCycle, hk, cmapSizes] <;>
      simp [cmapSizes] at ih <;> omega

theorem parseStep_grouping (lines : List (List Char)) (st : ParseState)
    (h : ∀ c, (alookup st.cycleData c).getD []
            = st.fireLogData.filter (fun e => e.cycle = c))
    (hs : cmapSizes st.cycleData = st.fireLogData.length) :
    (∀ c, (alookup (lines.foldl parseStep st).cycleData c).getD []
        = (lines.foldl parseStep st).fireLogData.filter (fun e => e.cycle = c))
    ∧ cmapSizes (lines.foldl parseStep st).cycleData
        = (lines.foldl parseStep st).fireLogData.length := by
  induction lines generalizing st with
  | nil => exact ⟨h, hs⟩
  | cons l ls ih =>
    simp only [List.foldl_cons]
    cases he : lineToEntry ⟨l⟩ with
    | none =>
      rw [show parseStep st l = st from by simp [parseStep, he]]
      exact ih st h hs
    | some e =>
      apply ih
      · intro c
        simp only [parseStep, he, pushEntry, alookup_pushCycle]
        by_cases hc : c = e.cycle
        · subst hc
          simp [h, List.filter_append]
        · simp [hc, h, List.filter_append, Ne.symm hc]
      · simp [parseStep, he, pushEntry, cmapSizes_pushCycle, hs]

theorem listAt_mem {α : Type} {l : List α} {i : Nat} {v : α}
    (h : listAt l i = some v) : v ∈ l :=
  List.get?_mem h

/-- Shape of a safe resolver result: absent, or one of the raw
arguments. -/
def ResolvedFrom (args : List String) (r : Option String) : Prop :=
  r = none ∨ ∃ v, v ∈ args ∧ r = some v

theorem resolvedFrom_listAt (args : List String) (k : Nat) :
    ResolvedFrom args (listAt args k) := by
  cases h : listAt args k with
  | none => exact Or.inl rfl
  | some v => exact Or.inr ⟨v, listAt_mem h, rfl⟩

theorem resolvedFrom_ite (args : List String) (c : Prop) [Decidable c]
    (x y : Option String) (hx : ResolvedFrom args x) (hy : ResolvedFrom args y) :
    ResolvedFrom args (if c then x else y) := by
  by_cases h : c <;> simp [h, hx, hy]

theorem resolveAfterCarry_resolvedFrom (name : String) (args : List String)
    (p : Nat) : ResolvedFrom args (resolveAfterCarry name args p) := by
  unfold resolveAfterCarry
  repeat'
    first
    | exact Or.inl rfl
    | apply resolvedFrom_listAt
    | apply resolvedFrom_ite
    | split
  all_goals exact Or.inr ⟨_, listAt_mem (by assumption), rfl⟩

theorem resolveAfterCarry_nil (name : String) (p : Nat) :
    resolveAfterCarry name [] p = none := by
  rcases resolveAfterCarry_resolvedFrom name [] p with h | ⟨v, hv, _⟩
  · exact h
  · exact absurd hv (List.not_mem_nil v)

theorem carryCase_resolvedFrom (args : List String) (p : Nat) (r : Option String)
    (h : carryCase args p = some r) : ResolvedFrom args r := by
  cases args with
  | nil =>
    simp [carryCase] at h
    exact Or.inl h.symm
  | cons a0 rest =>
    simp only [carryCase] at h
    split at h
    · cases rest with
      | nil =>
        simp at h
        exact Or.inl h.symm
      | cons a1 r2 =>
        simp only [Option.some.injEq] at h
        split at h
        · split at h
          · exact Or.inr ⟨a1, by simp, h.symm⟩
          · exact Or.inl h.symm
        · exact Or.inl h.symm
    · exact absurd h (by simp)

/-! Claim theorems. -/

/-- C1. The claim states that every opcode whose name contains "merge",
given non-empty rawArgs, resolves output port 0 to `args[0]`. The code
disagrees: the binary-arithmetic regex of app.js line 962 contains the
alternative `ge$`, which matches every name ending in "ge" — including
"merge" itself — so such names take the binary branch (`args[2]` at
port 0) and the dedicated merge branch of lines 1013-1015 is
unreachable for them, contradicting that branch's own intent and the
spec table. Evaluated at the failing input: `resolveOutput("merge",
["5","3","8"], 0)` is `"8"`, not `"5"`, and with a single argument it is
absent rather than `args[0]`. -/
theorem merge_resolves_through_binary_branch :
    resolveOutput "merge" ["5", "3", "8"] 0 = some "8"
    ∧ resolveOutput "merge" ["5"] 0 = none
    ∧ binaryNameMatch (jsLower "merge") = true
    ∧ resolveOutput "merger" ["5"] 0 = some "5" := by
  refine ⟨by decide, by decide, by decide, by decide⟩

/-- C2. The claim states that store/storeIndex opcodes never emit a data
token (absent for every port and every rawArgs list). The code
disagrees: the bitwise regex `(and|or|xor|shl|ashr|lshr)` of app.js
line 967 matches the substring "or" inside "store", so every name
containing "store" takes the bitwise branch and resolves port 0 to
`args[2]` whenever it exists; the dedicated `store → null` branch of
lines 1005-1007 is dead code, contradicting its own comment. Evaluated
at the failing input: `resolveOutput("store", ["1","2","3"], 0)` is
`"3"`, not absent. -/
theorem store_resolves_through_bitwise_branch :
    resolveOutput "store" ["1", "2", "3"] 0 = some "3"
    ∧ resolveOutput "storeindex" ["1", "2", "3", "4"] 0 = some "3"
    ∧ bitwiseNameMatch (jsLower "store") = true := by
  refine ⟨by decide, by decide, by decide⟩

/-- C3, counterexample to the reporting half of the claim. The parser's
entire resulting state is identical for two inputs whose skipped-line
counts differ (1 versus 0), so no component of the parser's output
reports the number of skipped lines. -/
theorem parse_result_carries_no_skipped_count :
    parseFireLog "zzz\n[1] (2) add 1 2 3" = parseFireLog "[1] (2) add 1 2 3"
    ∧ skippedLineCount "zzz\n[1] (2) add 1 2 3" = 1
    ∧ skippedLineCount "[1] (2) add 1 2 3" = 0 := by
  refine ⟨by decide, by decide, by decide⟩

/-- C3, amended. For every input text, `parseFireLog` never aborts and
produces exactly the grammar-conforming lines, in file order, skipping
every line that fails the grammar; the number of produced entries is the
number of grammar-conforming lines. No count of the skipped lines is
reported (see the counterexample). -/
theorem parse_skips_malformed_lines :
    ∀ content : String,
      (parseFireLog content).fireLogData
        = (splitOnNl (trimChars content.data)).filterMap (fun l => lineToEntry ⟨l⟩)
      ∧ (parseFireLog content).fireLogData.length
        = ((splitOnNl (trimChars content.data)).filter
            (fun l => (matchFireLine (trimChars l)).isSome)).length := by
  intro content
  constructor
  · rw [parseFireLog_eq_foldl, parseStep_entries]
    simp
  · rw [parseFireLog_eq_foldl, parseStep_entries]
    simp only [List.nil_append]
    rw [length_filterMap_eq_length_filter]
    congr 1
    apply List.filter_congr
    intro l _
    rw [lineToEntry_isSome]

/-- C7, counterexample. Loading a new trace/graph pair runs
`enableControls`, which calls `reset()`: this rewinds the cycle and
stops playback but does not restore `playbackSpeed` or `stepSize` to
their constructor defaults (5 and 1), so the resulting state differs
from the default `PlaybackState`. -/
theorem load_keeps_speed_and_step :
    (enableControlsOp
        { currentCycle := 7, isPlaying := true, playbackSpeed := 9, stepSize := 5 }).playbackSpeed = 9
    ∧ (enableControlsOp
        { currentCycle := 7, isPlaying := true, playbackSpeed := 9, stepSize := 5 }).stepSize = 5
    ∧ enableControlsOp
        { currentCycle := 7, isPlaying := true, playbackSpeed := 9, stepSize := 5 }
        ≠ initPlayback := by
  refine ⟨rfl, rfl, by decide⟩

/-- C7, amended. Whenever a new trace or graph is successfully loaded
(`enableControls` → `reset`), `currentCycle` is reset to 0 and
`isPlaying` to false, while `speedMultiplier` and `stepSize` keep their
current values instead of returning to the defaults. -/
theorem load_resets_cycle_and_playing_only :
    ∀ s : PlaybackState,
      enableControlsOp s =
        { currentCycle := 0, isPlaying := false,
          playbackSpeed := s.playbackSpeed, stepSize := s.stepSize } :=
  fun _ => rfl

/-- C9. With step size 1, `nextCycle` taken at the maximum cycle of the
cycle map leaves the current cycle unchanged, and `previousCycle` taken
at cycle 0 leaves it unchanged: stepping clamps into `[0, maxCycle]`. -/
theorem step_clamps_at_boundaries :
    ∀ cdata : CycleMap,
      nextCycleOp cdata (maxCycleOf cdata) 1 = maxCycleOf cdata
      ∧ previousCycleOp 0 1 = 0 := by
  intro cdata
  constructor
  · unfold nextCycleOp
    simp
  · rfl

/-- C10. The output-port resolver is total and in-bounds safe: it is a
function into `Option String` (never throws), an empty rawArgs list
always resolves to absent, and whenever a value is produced it is one of
the raw argument tokens — every positional access outside the bounds of
rawArgs yields absent rather than an out-of-range read. -/
theorem resolveOutput_total_and_inbounds :
    (∀ (name : String) (p : Nat), resolveOutput name [] p = none)
    ∧ (∀ (name : String) (args : List String) (p : Nat),
        resolveOutput name args p = none
        ∨ ∃ v, v ∈ args ∧ resolveOutput name args p = some v) := by
  constructor
  · intro name p
    unfold resolveOutput
    split
    · rfl
    · split
      · simp only [carryCase]
      · exact resolveAfterCarry_nil _ p
  · intro name args p
    unfold resolveOutput
    split
    · exact Or.inl rfl
    · split
      · cases hcc : carryCase args p with
        | none =>
          simp only [hcc]
          exact resolveAfterCarry_resolvedFrom _ args p
        | some r =>
          simp only [hcc]
          exact carryCase_resolvedFrom args p r hcc
      · exact resolveAfterCarry_resolvedFrom _ args p

/-- C5. For every carry-shaped opcode (name containing "carry") whose
first raw argument is a transition label containing "->": when a
numeric token (one whose `Number` coercion is not `NaN`) follows the
label, port 0 resolves to that token and every other port to absent;
when the label is alone, or the following token is not numeric, port 0
(indeed every port) resolves to absent. -/
theorem carry_transition_output (name lbl v : String) (rest : List String) (p : Nat)
    (hname : jsIncludes (jsLower name) "carry" = true)
    (hlbl : jsIncludes lbl "->" = true) :
    (jsNumberIsNaN v = false →
        resolveOutput name (lbl :: v :: rest) p = if p = 0 then some v else none)
    ∧ resolveOutput name [lbl] p = none
    ∧ (jsNumberIsNaN v = true → resolveOutput name (lbl :: v :: rest) p = none) := by
  have h0 : ¬ name = "" := by
    intro h
    rw [h] at hname
    exact absurd hname (by decide)
  refine ⟨?_, ?_, ?_⟩
  · intro hv
    unfold resolveOutput
    rw [if_neg h0, if_pos hname]
    simp only [carryCase, hlbl, if_true, hv]
  · unfold resolveOutput
    rw [if_neg h0, if_pos hname]
    simp only [carryCase, hlbl, if_true]
  · intro hv
    unfold resolveOutput
    rw [if_neg h0, if_pos hname]
    simp [carryCase, hlbl, hv]

/-- C5 witness: the spec's own carry examples, obtained from the
theorem at concrete inputs. -/
theorem carry_transition_output_witness :
    resolveOutput "carry" ["INIT->BLOCK", "0"] 0 = some "0"
    ∧ resolveOutput "carry" ["BLOCK->INIT"] 0 = none := by
  have h1 := carry_transition_output "carry" "INIT->BLOCK" "0" [] 0
      (by decide) (by decide)
  have h2 := carry_transition_output "carry" "BLOCK->INIT" "0" [] 0
      (by decide) (by decide)
  exact ⟨(h1.1 (by decide)).trans (by decide), h2.2.1⟩

/-- C6. For every opcode classified as the steer shape (name contains
"steer" and no earlier branch of the chain captures it) with at least 3
raw arguments: a `dataflow.steer` resolves `args[1]` exactly at the
port equal to the integer value of `Number(args[2])` and absent at
every other port, while a single-output true/false steer resolves
`args[1]` at port 0 exactly when `args[2]` is truthy (neither "0" nor
"false" case-insensitively), and absent otherwise. -/
theorem steer_output_resolution (name a0 a1 a2 : String) (rest : List String) (p : Nat)
    (hsteer : jsIncludes (jsLower name) "steer" = true)
    (hcarry : jsIncludes (jsLower name) "carry" = false ∨ jsIncludes a0 "->" = false)
    (hstream : jsIncludes (jsLower name) "stream" = false)
    (hbin : binaryNameMatch (jsLower name) = false)
    (hbit : bitwiseNameMatch (jsLower name) = false)
    (hconv : convNameMatch (jsLower name) = false)
    (hconst : constNameMatch (jsLower name) = false) :
    resolveOutput name (a0 :: a1 :: a2 :: rest) p =
      if jsIncludes (jsLower name) "dataflow.steer" = true then
        (if jsNumberToInt a2 = some (p : Int) then some a1 else none)
      else if p = 0 ∧ a2 ≠ "0" ∧ jsLower a2 ≠ "false" then some a1 else none := by
  have h0 : ¬ name = "" := by
    intro h
    rw [h] at hsteer
    exact absurd hsteer (by decide)
  have hR : resolveOutput name (a0 :: a1 :: a2 :: rest) p
      = resolveAfterCarry (jsLower name) (a0 :: a1 :: a2 :: rest) p := by
    unfold resolveOutput
    rw [if_neg h0]
    by_cases hc : jsIncludes (jsLower name) "carry" = true
    · rw [if_pos hc]
      rcases hcarry with hcf | ha
      · rw [hcf] at hc
        exact absurd hc (by decide)
      · simp [carryCase, ha]
    · rw [if_neg hc]
  rw [hR]
  unfold resolveAfterCarry
  rw [if_neg (by simp [hstream]), if_neg (by simp [hbin]), if_neg (by simp [hbit]),
      if_neg (by simp [hconv]), if_neg (by simp [hconst]),
      if_pos (by simp [hsteer])]
  show (if jsIncludes (jsLower name) "dataflow.steer" = true then _ else _) = _
  by_cases hd : jsIncludes (jsLower name) "dataflow.steer" = true
  · rw [if_pos hd, if_pos hd]
    cases hn : jsNumberToInt a2 with
    | none => simp [hn]
    | some channel =>
      by_cases hp : (p : Int) = channel
      · simp [hn, hp]
      · have hp2 : ¬ channel = (p : Int) := fun hh => hp hh.symm
        simp [hn, hp, hp2]
  · rw [if_neg hd, if_neg hd]
    by_cases hp : p = 0
    · by_cases hz : a2 = "0"
      · simp [hp, hz]
      · by_cases hf : jsLower a2 = "false"
        · simp [hp, hz, hf]
        · simp [hp, hz, hf]
    · simp [hp]

/-- C6 witness: the spec's steer example, obtained from the theorem at
concrete inputs. -/
theorem steer_output_resolution_witness :
    resolveOutput "dataflow.steer" ["true", "2", "0"] 0 = some "2"
    ∧ resolveOutput "dataflow.steer" ["true", "2", "0"] 1 = none := by
  have h0 := steer_output_resolution "dataflow.steer" "true" "2" "0" [] 0
      (by decide) (Or.inl (by decide)) (by decide) (by decide) (by decide)
      (by decide) (by decide)
  have h1 := steer_output_resolution "dataflow.steer" "true" "2" "0" [] 1
      (by decide) (Or.inl (by decide)) (by decide) (by decide) (by decide)
      (by decide) (by decide)
  exact ⟨h0.trans (by decide), h1.trans (by decide)⟩

/-- C8. After parsing any input text: every bucket of the cycle map is
exactly the (file-ordered) filter of the parsed entries with that cycle
— hence every parsed event appears in the bucket keyed by its own cycle
and buckets preserve file order — and the total size of all buckets
equals the number of parsed entries, which is the number of
grammar-conforming lines. -/
theorem cycle_index_grouping :
    ∀ content : String,
      (∀ c, (alookup (parseFireLog content).cycleData c).getD []
          = (parseFireLog content).fireLogData.filter (fun e => e.cycle = c))
      ∧ (∀ e ∈ (parseFireLog content).fireLogData,
          e ∈ (alookup (parseFireLog content).cycleData e.cycle).getD [])
      ∧ cmapSizes (parseFireLog content).cycleData
          = (parseFireLog content).fireLogData.length
      ∧ cmapSizes (parseFireLog content).cycleData
          = ((splitOnNl (trimChars content.data)).filter
              (fun l => (matchFireLine (trimChars l)).isSome)).length := by
  intro content
  have hinv := parseStep_grouping (splitOnNl (trimChars content.data))
      { fireLogData := [], cycleData := [] }
      (by intro c; simp [alookup])
      (by simp [cmapSizes])
  rw [parseFireLog_eq_foldl]
  refine ⟨hinv.1, ?_, hinv.2, ?_⟩
  · intro e he
    rw [hinv.1 e.cycle]
    simp only [List.mem_filter]
    exact ⟨he, by simp⟩
  · rw [hinv.2, parseStep_entries]
    simp only [List.nil_append]
    rw [length_filterMap_eq_length_filter]
    congr 1
    apply List.filter_congr
    intro l _
    rw [lineToEntry_isSome]

/-- The two per-instruction queue effects — the silent replay path and
the render path — are the same function on queue states. -/
theorem fireInstrSilent_eq_render :
    fireInstrSilent = fireInstrRender := by
  funext cfg ext st instr
  unfold fireInstrSilent fireInstrRender
  cases h : cfg.nodeIds.contains instr.instructionId with
  | false => simp only [h, Bool.not_false, if_true]
  | true =>
    simp only [h, Bool.not_true, Bool.false_eq_true, if_false]
    cases hn : alookup cfg.nodeIdToName instr.instructionId with
    | none => rfl
    | some nodeName =>
      by_cases he : nodeName = ""
      · simp [he]
      · simp [he]

/-- Silent replay of a cycle is the render effect of that cycle. -/
theorem silentCycle_eq_renderCycle :
    silentCycle = renderCycle := by
  unfold silentCycle renderCycle
  rw [fireInstrSilent_eq_render]

/-- Characterization of sequential stepping: after `target` steps from
a reset, the cycle pointer sits at `min maxCycle target` and the queues
are the fold of the render effect over all cycles up to it. -/
theorem stepTo_spec (cfg : GraphCfg) (ext : String → String → Nat) (cdata : CycleMap) :
    ∀ t, stepTo cfg ext cdata t =
      { currentCycle := min (maxCycleOf cdata) t,
        queues := (List.range (min (maxCycleOf cdata) t + 1)).foldl
                    (renderCycle cfg ext cdata) [] } := by
  intro t
  induction t with
  | zero =>
    simp only [stepTo, resetQueues, Nat.min_zero, List.range_succ, List.range_zero,
      List.nil_append, List.foldl_cons, List.foldl_nil]
  | succ n ih =>
    rw [stepTo, ih]
    unfold nextCycleQueues
    by_cases hn : n < maxCycleOf cdata
    · have hmn : min (maxCycleOf cdata) n = n := Nat.min_eq_right (Nat.le_of_lt hn)
      have hmn1 : min (maxCycleOf cdata) (n + 1) = n + 1 := Nat.min_eq_right hn
      simp only [hmn, hmn1, if_pos hn]
      simp [List.range_succ, List.foldl_append]
    · have hle : maxCycleOf cdata ≤ n := Nat.le_of_not_lt hn
      have hmn : min (maxCycleOf cdata) n = maxCycleOf cdata := Nat.min_eq_left hle
      have hmn1 : min (maxCycleOf cdata) (n + 1) = maxCycleOf cdata :=
        Nat.min_eq_left (Nat.le_succ_of_le hle)
      simp only [hmn, hmn1, if_neg (Nat.lt_irrefl (maxCycleOf cdata))]

/-- C4. In token-queue mode, for every target cycle, every rendered
graph configuration, every res-index extraction function and every
parsed cycle map, the queue contents produced by `seek(target)` — a
silent replay of cycles 0 up to (not including) the clamped target
followed by a normal render of it — equal the queue contents produced
by sequentially stepping from cycle 0 one cycle at a time. -/
theorem seek_equals_sequential_stepping :
    ∀ (cfg : GraphCfg) (ext : String → String → Nat) (cdata : CycleMap)
      (target : Nat),
      (stepTo cfg ext cdata target).queues = seekQueues cfg ext cdata target := by
  intro cfg ext cdata target
  rw [stepTo_spec]
  unfold seekQueues
  rw [silentCycle_eq_renderCycle, List.range_succ, List.foldl_append]
  simp

end Wavefront
